import Mathlib

/-!
# Verification of the grid-resolution and tiling core of harmony-browse-image-generator

This file gives a shallow embedding, in Lean 4, of the grid-parameter
resolution and tiling subsystem of the harmony-browse-image-generator
repository (the `sizes` and `message_utility` modules and the
`PREFERRED_CRS` table of the `crs` module).  Those modules are not present
under `src/` of this checkout — only their unit tests
(`src/tests/unit/test_sizes.py`, `src/tests/unit/test_message_utilities.py`)
are — so every definition below is modelled from the specification's
description of the missing module, with all concrete behaviour pinned to
the expectations of those unit tests.

Conventions of the embedding:
* Python floats are modelled as exact rationals (`ℚ`); every number the
  tests exercise is exactly representable.
* Python `round` (banker's rounding, ties to even) is modelled by `pyround`.
* fallible code returns `Except`/`Option`; attribute access on the Harmony
  message is modelled with explicit `Option` fields.
-/

/-- Ground-coordinate bounding box of a grid, in CRS units
(`ScaleExtent` of the data model). -/
structure ScaleExtent where
  xmin : ℚ
  ymin : ℚ
  xmax : ℚ
  ymax : ℚ
deriving DecidableEq, Repr

/-- A declared area of use of a CRS (pyproj `CRS.area_of_use`):
west/south/east/north bounds in degrees. -/
structure AreaOfUse where
  west : ℚ
  south : ℚ
  east : ℚ
  north : ℚ
deriving DecidableEq, Repr

/-- Modelled from the spec: a coordinate reference system, reduced to the
observables the missing `sizes`/`crs` modules consult.  `code` is the
authority identifier (for example `"EPSG:4326"`), `is_projected` the
projected/geographic flag, `area_of_use` the declared area of use (absent
for some CRSes), and `projected_bounds` stands for the output of the
external pyproj bounds transformation used by `best_guess_scale_extent`
on projected CRSes (an external collaborator, carried here as data). -/
structure CRS where
  code : String
  is_projected : Bool
  area_of_use : Option AreaOfUse
  projected_bounds : Option ScaleExtent
deriving DecidableEq, Repr

/-- Six-parameter affine transform mapping pixel (col,row) to ground (x,y):
`a` is the x pixel size, `c` the origin x, `e` the (negative) y pixel size,
`f` the origin y; `b`,`d` are the rotation terms (always zero here). -/
structure Affine where
  a : ℚ
  b : ℚ
  c : ℚ
  d : ℚ
  e : ℚ
  f : ℚ
deriving DecidableEq, Repr

/-- A resolved output grid (`GridSpec` of the data model): the dictionary
of width, height, CRS and transform that flows between the resolver and
the tiler.  Dimensions are rationals because the Python tiler stores
(numerically integral) floats for tile dimensions. -/
structure GridParams where
  width : ℚ
  height : ℚ
  crs : CRS
  transform : Affine
deriving DecidableEq, Repr

/-- Position of a tile in the output tile matrix, in row-major reading
order (row 0 = top). -/
structure TileLocator where
  row : ℕ
  col : ℕ
deriving DecidableEq, Repr

/-- One entry of a GIBS preferred-resolution table: a standard pixel size
(in the table's CRS units) and the grid width it implies. -/
structure ResolutionInfo where
  pixel_size : ℚ
  width : ℕ
deriving DecidableEq, Repr

/-- Modelled from the spec: the fixed meters-per-degree conversion
constant of the missing `sizes` module (its exact value is not pinned by
any test expectation used below). -/
def METERS_PER_DEGREE : ℚ := 111319.490793

/-- Modelled from the spec: the GIBS preferred-resolution table for the
global geographic family (`epsg_4326_resolutions` of the missing
`sizes` module), ordered coarsest to finest as the unit tests pin it
(index 0 is the 2 km / 0.017578125-degree entry). -/
def epsg_4326_resolutions : List ResolutionInfo :=
  [⟨0.017578125, 20480⟩,
   ⟨0.0087890625, 40960⟩,
   ⟨0.00439453125, 81920⟩,
   ⟨0.002197265625, 163840⟩,
   ⟨0.0010986328125, 327680⟩,
   ⟨0.00054931640625, 655360⟩,
   ⟨0.000274658203125, 1310720⟩,
   ⟨0.0001373291015625, 2621440⟩]

/-- Modelled from the spec: the GIBS preferred-resolution table for the
north-polar family (`epsg_3413_resolutions`), ordered coarsest to finest
(the tests pin index 2 to pixel size 512). -/
def epsg_3413_resolutions : List ResolutionInfo :=
  [⟨2048, 4096⟩,
   ⟨1024, 8192⟩,
   ⟨512, 16384⟩,
   ⟨256, 32768⟩,
   ⟨128, 65536⟩,
   ⟨64, 131072⟩,
   ⟨32, 262144⟩,
   ⟨16, 524288⟩]

/-- Modelled from the spec: the GIBS preferred-resolution table for the
south-polar family (`epsg_3031_resolutions`); same pixel sizes as the
north-polar table. -/
def epsg_3031_resolutions : List ResolutionInfo := epsg_3413_resolutions

/-- Python `round`: round half to even (banker's rounding). -/
def pyround (x : ℚ) : ℤ :=
  let f := ⌊x⌋
  let r := x - (f : ℚ)
  if r < 1/2 then f
  else if 1/2 < r then f + 1
  else if f % 2 = 0 then f else f + 1

/-- Python `abs` on rationals, written with an explicit branch. -/
def qabs (x : ℚ) : ℚ := if x < 0 then -x else x

/-- The candidate/entry comparison list of the Resolution Matcher: for
every candidate resolution (outer) and every table entry (inner), the
pair of `abs (candidate - entry.pixel_size)` and the entry, in iteration
order. -/
def resolution_diffs (resolutions : List ℚ) (table : List ResolutionInfo) :
    List (ℚ × ResolutionInfo) :=
  resolutions.flatMap (fun c => table.map (fun e => (qabs (c - e.pixel_size), e)))

/-- One step of the running-minimum loop of the Resolution Matcher: a
pair replaces the running best only when its difference is strictly
smaller. -/
def pickStep (best : Option (ℚ × ResolutionInfo)) (p : ℚ × ResolutionInfo) :
    Option (ℚ × ResolutionInfo) :=
  match best with
  | none => some p
  | some b => if p.1 < b.1 then some p else some b

/-- Strict-improvement minimum selection over a difference/entry list:
because the update of `pickStep` is strict, the earliest pair attaining
the minimum wins ties. -/
def pickMin (pairs : List (ℚ × ResolutionInfo)) : Option (ℚ × ResolutionInfo) :=
  pairs.foldl pickStep none

/-- Modelled from the spec: `find_closest_resolution` of the missing
`sizes` module.  Each candidate resolution is compared against every
table entry and the entry minimizing the absolute difference over any
candidate is selected; the update is strict, so on an exact tie the pair
encountered first (earlier candidate, then earlier — coarser — table
entry) is kept, as the halfway unit tests pin. -/
def find_closest_resolution (resolutions : List ℚ) (table : List ResolutionInfo) :
    Option ResolutionInfo :=
  (pickMin (resolution_diffs resolutions table)).map Prod.snd

/-- Modelled from the spec: the `PREFERRED_CRS` table of the missing
`crs` module — the authority codes of the three preferred CRS
definitions (global geographic, north-polar, south-polar). -/
def PREFERRED_CRS_global : String := "EPSG:4326"

/-- North-polar entry of the preferred-CRS table. -/
def PREFERRED_CRS_north : String := "EPSG:3413"

/-- South-polar entry of the preferred-CRS table. -/
def PREFERRED_CRS_south : String := "EPSG:3031"

/-- Modelled from the spec: `icd_defined_extent_from_crs` of the missing
`sizes` module.  Returns the hard-coded ICD-standard extent for the three
preferred CRSes and raises `HyBIGValueError` (modelled as `Except.error`)
naming the offending CRS for every other CRS, with the message the unit
test pins (`Invalid input CRS: EPSG:4311`). -/
def icd_defined_extent_from_crs (crs : CRS) : Except String ScaleExtent :=
  if crs.code = PREFERRED_CRS_global then
    Except.ok ⟨-180, -90, 180, 90⟩
  else if crs.code = PREFERRED_CRS_north ∨ crs.code = PREFERRED_CRS_south then
    Except.ok ⟨-4194304, -4194304, 4194304, 4194304⟩
  else
    Except.error ("Invalid input CRS: " ++ crs.code)

/-- The whole-world area of use used as fallback when a CRS declares
none. -/
def WHOLE_WORLD_AREA : AreaOfUse := ⟨-180, -90, 180, 90⟩

/-- Modelled from the spec: `best_guess_scale_extent` of the missing
`sizes` module.  The CRS's declared area of use (whole world when none is
declared) is passed through unmodified for unprojected CRSes — including
antimeridian-crossing areas, which then yield `xmin > xmax`; for
projected CRSes the bounds produced by the external pyproj
transformation (carried on the `CRS` value) are used. -/
def best_guess_scale_extent (crs : CRS) : ScaleExtent :=
  let aou := crs.area_of_use.getD WHOLE_WORLD_AREA
  let extent : ScaleExtent := ⟨aou.west, aou.south, aou.east, aou.north⟩
  if crs.is_projected then crs.projected_bounds.getD extent else extent

/-- Modelled from the spec: `needs_tiling` of the missing `sizes`
module.  True when the grid's x pixel resolution (`transform.a`) is finer
than the fixed threshold — 500 meters for projected CRSes, the
degree equivalent for geographic CRSes — as the unit tests pin
(projected: 400 tiles, 600 does not; geographic: 0.001 tiles, 0.1 does
not). -/
def needs_tiling (gp : GridParams) : Bool :=
  if gp.crs.is_projected then gp.transform.a < 500
  else gp.transform.a < 500 / METERS_PER_DEGREE

/-- Modelled from the spec: `compute_cells_per_tile` of the missing
`sizes` module: `round(footprint / resolution)` with a fixed target
ground footprint of 1,000,000 meters for projected CRSes and 10 degrees
for geographic CRSes (pinned by the unit tests: resolution 500 gives
2000 cells, resolution 0.009 gives 1111 cells). -/
def compute_cells_per_tile (resolution : ℚ) (crs : CRS) : ℤ :=
  if crs.is_projected then pyround (1000000 / resolution)
  else pyround (10 / resolution)

/-- Modelled from the spec: `compute_tile_boundaries` of the missing
`sizes` module.  The tile-start offsets are the multiples of
`cells_per_tile` strictly below `total_cells` (there are
`ceil(total_cells / cells_per_tile)` of them), and `total_cells` itself
is appended as the final boundary; the unit tests pin
`(10, 40) ↦ [0, 10, 20, 30, 40]` and `(10, 43) ↦ [0, 10, 20, 30, 40, 43]`. -/
def compute_tile_boundaries (cells_per_tile : ℕ) (total_cells : ℚ) : List ℚ :=
  ((List.range (⌈total_cells / (cells_per_tile : ℚ)⌉).toNat).map
    (fun i : ℕ => ((i : ℚ) * (cells_per_tile : ℚ)))) ++ [total_cells]

/-- The boundary list asserted by the claim under audit: multiples of
`step` up to and *including* `total` when it is a multiple, with the
sentinel appended unconditionally on top. -/
def claim_tile_boundaries (step : ℕ) (total : ℕ) : List ℚ :=
  ((List.range (total / step + 1)).map
    (fun i : ℕ => ((i : ℚ) * (step : ℚ)))) ++ [(total : ℚ)]

/-- `numpy.diff`: the list of differences of consecutive elements. -/
def np_diff : List ℚ → List ℚ
  | a :: b :: t => (b - a) :: np_diff (b :: t)
  | _ => []

/-- Modelled from the spec: `compute_tile_dimensions` of the missing
`sizes` module — `numpy.diff` of the origins with the last origin
appended, so each entry is the cell count of one tile and the final
entry is the `0` sentinel belonging to the artificial trailing
boundary.  (On the empty list, where the Python would fail indexing
`origins[-1]`, the model appends `0`.) -/
def compute_tile_dimensions (tile_origins : List ℚ) : List ℚ :=
  np_diff (tile_origins ++ [tile_origins.getLastD 0])

/-- Python `enumerate`, carrying the running index explicitly. -/
def enumerate {α : Type} : ℕ → List α → List (ℕ × α)
  | _, [] => []
  | i, a :: t => (i, a) :: enumerate (i + 1) t

/-- The tiling core of `create_tiled_output_parameters` (missing `sizes`
module), given the cell budget per tile: per-axis boundaries and
dimensions are computed, each axis's trailing zero-dimension sentinel is
discarded, and the row-major cross product of rows (outer) and columns
(inner) yields one sub-grid sharing the parent CRS and per-axis
resolution per tile, with its origin offset by the tile's start cell,
plus the parallel row/column locator list. -/
def tile_grid (cells_per_tile : ℕ) (gp : GridParams) :
    List GridParams × List TileLocator :=
  let t := gp.transform
  let x_origins := compute_tile_boundaries cells_per_tile gp.width
  let y_origins := compute_tile_boundaries cells_per_tile gp.height
  let x_dims := compute_tile_dimensions x_origins
  let y_dims := compute_tile_dimensions y_origins
  let rows := enumerate 0 ((y_origins.zip y_dims).dropLast)
  let cols := enumerate 0 ((x_origins.zip x_dims).dropLast)
  let cells := rows.flatMap (fun rp => cols.map (fun cp => (rp, cp)))
  (cells.map (fun q =>
      { width := q.2.2.2
        height := q.1.2.2
        crs := gp.crs
        transform :=
          { t with c := t.c + q.2.2.1 * t.a, f := t.f + q.1.2.1 * t.e } }),
   cells.map (fun q => { row := q.1.1, col := q.2.1 }))

/-- Modelled from the spec: `create_tiled_output_parameters` of the
missing `sizes` module.  A grid that does not need tiling is returned as
the single tile `{row 0, col 0}`; otherwise the grid is partitioned with
the cell budget chosen by `compute_cells_per_tile` from the grid's x
resolution and CRS. -/
def create_tiled_output_parameters (gp : GridParams) :
    List GridParams × List TileLocator :=
  if needs_tiling gp then
    tile_grid (compute_cells_per_tile gp.transform.a gp.crs).toNat gp
  else ([gp], [⟨0, 0⟩])

/-- Target dimensions of the output grid as resolved by the Grid
Parameter Resolver. -/
structure Dimensions where
  height : ℚ
  width : ℚ
deriving DecidableEq, Repr

/-- Metadata of the input raster dataset, as read by the external
raster-I/O collaborator: dimensions, CRS, and affine transform. -/
structure Dataset where
  height : ℚ
  width : ℚ
  crs : CRS
  transform : Affine
deriving DecidableEq, Repr

/-- The `scaleSize` element of a Harmony message: per-axis resolution,
either axis possibly absent. -/
structure MsgScaleSize where
  x : Option ℚ
  y : Option ℚ
deriving DecidableEq, Repr

/-- One axis of the `scaleExtent` element of a Harmony message. -/
structure MsgExtentRange where
  min : Option ℚ
  max : Option ℚ
deriving DecidableEq, Repr

/-- The `scaleExtent` element of a Harmony message. -/
structure MsgScaleExtent where
  x : Option MsgExtentRange
  y : Option MsgExtentRange
deriving DecidableEq, Repr

/-- The `format` element of a Harmony message; every field optional. -/
structure MsgFormat where
  height : Option ℚ
  width : Option ℚ
  scaleSize : Option MsgScaleSize
  scaleExtent : Option MsgScaleExtent
  crs : Option String
deriving DecidableEq, Repr

/-- A Harmony message restricted to the fields this core reads; a
message built from `{}` has no `format`. -/
structure Message where
  format : Option MsgFormat
deriving DecidableEq, Repr

/-- `format.height` of a message, walked through the optional levels. -/
def Message.heightOpt (m : Message) : Option ℚ := m.format.bind (·.height)

/-- `format.width` of a message, walked through the optional levels. -/
def Message.widthOpt (m : Message) : Option ℚ := m.format.bind (·.width)

/-- `format.scaleSize.x` of a message. -/
def Message.scaleSizeX (m : Message) : Option ℚ :=
  (m.format.bind (·.scaleSize)).bind (·.x)

/-- `format.scaleSize.y` of a message. -/
def Message.scaleSizeY (m : Message) : Option ℚ :=
  (m.format.bind (·.scaleSize)).bind (·.y)

/-- Modelled from the spec: `has_dimensions` of the missing
`message_utility` module — true exactly when the message carries both a
height and a width (the unit tests pin that a single dimension does not
count). -/
def has_dimensions (m : Message) : Bool :=
  m.heightOpt.isSome && m.widthOpt.isSome

/-- Modelled from the spec: `has_scale_sizes` of the missing
`message_utility` module — true exactly when the message carries both an
x and a y scale size. -/
def has_scale_sizes (m : Message) : Bool :=
  m.scaleSizeX.isSome && m.scaleSizeY.isSome

/-- Modelled from the spec: `resolution_in_target_crs_units` of the
missing `sizes` module.  The input raster's per-axis resolution is taken
from its transform and scaled by the fixed meters-per-degree constant
when the dataset and target CRS differ in projected/unprojected nature
(projected to unprojected divides, unprojected to projected
multiplies). -/
def resolution_in_target_crs_units (dataset : Dataset) (target_crs : CRS) : ℚ × ℚ :=
  let xres := dataset.transform.a
  let yres := -dataset.transform.e
  if dataset.crs.is_projected = target_crs.is_projected then (xres, yres)
  else if dataset.crs.is_projected then
    (xres / METERS_PER_DEGREE, yres / METERS_PER_DEGREE)
  else (xres * METERS_PER_DEGREE, yres * METERS_PER_DEGREE)

/-- Modelled from the spec: `best_guess_target_dimensions` of the
missing `sizes` module.  The dataset's resolution is converted to target
CRS units; a resolution coarser than the coarsest table entry on both
axes keeps the cell counts implied by the raw resolution, otherwise the
resolution is snapped to the table by `find_closest_resolution` and the
dimensions are the rounded cell counts of the resolved extent at the
snapped resolution. -/
def best_guess_target_dimensions (dataset : Dataset) (se : ScaleExtent)
    (target_crs : CRS) : Dimensions :=
  let res := resolution_in_target_crs_units dataset target_crs
  let table :=
    if target_crs.is_projected then epsg_3413_resolutions else epsg_4326_resolutions
  let coarsest := (table.headD ⟨0, 0⟩).pixel_size
  if coarsest < res.1 ∧ coarsest < res.2 then
    { height := (pyround ((se.ymax - se.ymin) / res.2) : ℚ)
      width := (pyround ((se.xmax - se.xmin) / res.1) : ℚ) }
  else
    match find_closest_resolution [res.1, res.2] table with
    | some info =>
        { height := (pyround ((se.ymax - se.ymin) / info.pixel_size) : ℚ)
          width := (pyround ((se.xmax - se.xmin) / info.pixel_size) : ℚ) }
    | none => { height := dataset.height, width := dataset.width }

/-- Modelled from the spec: `choose_target_dimensions` of the missing
`sizes` module.  Explicit height and width are used as-is only when both
are present; otherwise both x and y scale sizes give rounded cell counts
over the resolved extent; otherwise the best-guess path is taken. -/
def choose_target_dimensions (m : Message) (dataset : Dataset)
    (scale_extent : ScaleExtent) (target_crs : CRS) : Dimensions :=
  if has_dimensions m then
    { height := m.heightOpt.getD 0, width := m.widthOpt.getD 0 }
  else if has_scale_sizes m then
    { height := (pyround ((scale_extent.ymax - scale_extent.ymin) / m.scaleSizeY.getD 1) : ℚ)
      width := (pyround ((scale_extent.xmax - scale_extent.xmin) / m.scaleSizeX.getD 1) : ℚ) }
  else best_guess_target_dimensions dataset scale_extent target_crs

/-- A message with the `height` and `width` fields of its format removed
(used to compare a single-dimension request with a request carrying no
dimensions at all). -/
def eraseDimensions (m : Message) : Message :=
  { format := m.format.map (fun f => { f with height := none, width := none }) }

/-- A Python value as seen by the reflective attribute walk of the
missing `message_utility` module: `none` is Python `None`, `str` a
string leaf, `obj` an object with named attributes. -/
inductive PyVal where
  | none : PyVal
  | str : String → PyVal
  | obj : List (String × PyVal) → PyVal

/-- Python `getattr(obj, name)` restricted to the modelled values:
attribute lookup succeeds only on an object carrying the name. -/
def PyVal.getattr : PyVal → String → Option PyVal
  | PyVal.obj fields, name => fields.lookup name
  | _, _ => Option.none

/-- The straightforward semantics of a dotted attribute path: follow
every step, failing if any step is missing. -/
def PyVal.lookupPath : PyVal → List String → Option PyVal
  | v, [] => some v
  | v, a :: rest => (v.getattr a).bind (fun w => PyVal.lookupPath w rest)

/-- The recursive walk underneath `rgetattr`: follow the attribute steps
and return the default as soon as one is missing. -/
def rgetattr_go (obj : PyVal) (path : List String) (default : PyVal) : PyVal :=
  match path with
  | [] => obj
  | a :: rest =>
      match obj.getattr a with
      | Option.none => default
      | some v => rgetattr_go v rest default

/-- Modelled from the spec: `rgetattr` of the missing `message_utility`
module — walk a dotted attribute path with a default (Python default
`None`, modelled by passing `PyVal.none`), never raising on a missing
attribute. -/
def rgetattr (obj : PyVal) (path : String) (default : PyVal) : PyVal :=
  rgetattr_go obj (path.splitOn ".") default

/-- The authority codes of the fixed preferred-CRS set. -/
def preferredCRSCodes : List String :=
  [PREFERRED_CRS_global, PREFERRED_CRS_north, PREFERRED_CRS_south]

/-- The global geographic preferred CRS (EPSG:4326). -/
def global_geographic_crs : CRS :=
  { code := "EPSG:4326"
    is_projected := false
    area_of_use := some WHOLE_WORLD_AREA
    projected_bounds := Option.none }

/-- EPSG:4269 (NAD83 geographic): its declared area of use crosses the
antimeridian (west = 167.65, east = -40.73), as the unit test records. -/
def epsg_4269_crs : CRS :=
  { code := "EPSG:4269"
    is_projected := false
    area_of_use := some ⟨167.65, 14.92, -40.73, 86.45⟩
    projected_bounds := Option.none }

/-- EPSG:4311, the non-preferred CRS the unit test probes the
unsupported-CRS error with. -/
def epsg_4311_crs : CRS :=
  { code := "EPSG:4311"
    is_projected := false
    area_of_use := Option.none
    projected_bounds := Option.none }

/-- C5: for a CRS whose declared area of use crosses the antimeridian
(EPSG:4269), `best_guess_scale_extent` returns that area of use
unmodified, yielding an extent with `xmin > xmax` and hence violating
the `ScaleExtent` invariant `xmax > xmin`. -/
theorem best_guess_scale_extent_antimeridian_violates_invariant :
    epsg_4269_crs.area_of_use = some ⟨167.65, 14.92, -40.73, 86.45⟩ ∧
    best_guess_scale_extent epsg_4269_crs = ⟨167.65, 14.92, -40.73, 86.45⟩ ∧
    (best_guess_scale_extent epsg_4269_crs).xmax <
      (best_guess_scale_extent epsg_4269_crs).xmin := by
  refine ⟨rfl, rfl, ?_⟩
  show (-40.73 : ℚ) < 167.65
  norm_num

/-- C8: `icd_defined_extent_from_crs` returns the hard-coded
ICD-standard extent for every CRS of the preferred set, and for every
other CRS raises an error whose message reports the offending CRS
identifier. -/
theorem icd_defined_extent_preferred_or_error (crs : CRS) :
    (crs.code ∉ preferredCRSCodes →
      icd_defined_extent_from_crs crs =
        Except.error ("Invalid input CRS: " ++ crs.code)) ∧
    (crs.code = PREFERRED_CRS_global →
      icd_defined_extent_from_crs crs = Except.ok ⟨-180, -90, 180, 90⟩) ∧
    (crs.code = PREFERRED_CRS_north ∨ crs.code = PREFERRED_CRS_south →
      icd_defined_extent_from_crs crs =
        Except.ok ⟨-4194304, -4194304, 4194304, 4194304⟩) := by
  unfold icd_defined_extent_from_crs
  refine ⟨fun hmem => ?_, fun hg => ?_, fun hp => ?_⟩
  · simp only [preferredCRSCodes, List.mem_cons, List.not_mem_nil, or_false,
      not_or] at hmem
    rw [if_neg hmem.1, if_neg (by tauto)]
  · rw [if_pos hg]
  · have hng : crs.code ≠ PREFERRED_CRS_global := by
      rcases hp with h | h <;> rw [h] <;> decide
    rw [if_neg hng, if_pos hp]

/-- Witness for C8 at the unit test's concrete CRSes: EPSG:4311 is
outside the preferred set and gets the pinned error message, EPSG:4326
is preferred and gets the ICD global extent. -/
theorem icd_defined_extent_preferred_or_error_witness :
    icd_defined_extent_from_crs epsg_4311_crs =
      Except.error "Invalid input CRS: EPSG:4311" ∧
    icd_defined_extent_from_crs global_geographic_crs =
      Except.ok ⟨-180, -90, 180, 90⟩ :=
  ⟨(icd_defined_extent_preferred_or_error epsg_4311_crs).1 (by decide),
   (icd_defined_extent_preferred_or_error global_geographic_crs).2.1 rfl⟩

/-- C9: a resolved grid for which `needs_tiling` is false is returned by
the tiler as exactly one tile equal to the input grid (same width,
height, CRS and transform), with the single locator `{row 0, col 0}`. -/
theorem create_tiled_output_parameters_no_tiling (gp : GridParams)
    (h : needs_tiling gp = false) :
    create_tiled_output_parameters gp = ([gp], [⟨0, 0⟩]) := by
  simp [create_tiled_output_parameters, h]

/-- A coarse (0.1-degree) global geographic grid, below the tiling
threshold. -/
def untiled_grid : GridParams :=
  { width := 3600
    height := 1800
    crs := global_geographic_crs
    transform := ⟨0.1, 0, -180, 0, -0.1, 90⟩ }

/-- Witness for C9 at the unit test's coarse geographic grid. -/
theorem create_tiled_output_parameters_no_tiling_witness :
    needs_tiling untiled_grid = false ∧
    create_tiled_output_parameters untiled_grid = ([untiled_grid], [⟨0, 0⟩]) := by
  have h : needs_tiling untiled_grid = false := by
    simp only [needs_tiling, untiled_grid, global_geographic_crs]
    norm_num [METERS_PER_DEGREE]
  exact ⟨h, create_tiled_output_parameters_no_tiling untiled_grid h⟩

/-- The recursive walk agrees with the `Option` semantics of the dotted
path: present paths give the nested value, a missing step gives the
default. -/
theorem rgetattr_go_eq_lookupPath (path : List String) :
    ∀ (obj default : PyVal),
      rgetattr_go obj path default = (obj.lookupPath path).getD default := by
  induction path with
  | nil => intro obj default; rfl
  | cons a rest ih =>
      intro obj default
      simp only [rgetattr_go, PyVal.lookupPath]
      cases obj.getattr a with
      | none => rfl
      | some v => simpa using ih v default

/-- C10: `rgetattr` never fails on a missing attribute — on any object,
dotted path and default it returns the nested attribute value when every
step of the path exists and the supplied default otherwise (Python's
implicit default `None` is the instance `default = PyVal.none`). -/
theorem rgetattr_returns_value_or_default (obj : PyVal) (path : String)
    (default : PyVal) :
    rgetattr obj path default = (obj.lookupPath (path.splitOn ".")).getD default :=
  rgetattr_go_eq_lookupPath (path.splitOn ".") obj default

/-- `qabs` is the identity on nonnegative rationals. -/
theorem qabs_of_nonneg {x : ℚ} (h : 0 ≤ x) : qabs x = x := if_neg (not_lt.mpr h)

/-- `qabs` negates nonpositive rationals. -/
theorem qabs_of_neg {x : ℚ} (h : x < 0) : qabs x = -x := if_pos h

/-- Starting the running-minimum loop from a pair yields a pair of the
processed list (or the start), no larger than the start and than any
processed pair. -/
theorem pickMin_from_some (l : List (ℚ × ResolutionInfo)) :
    ∀ b : ℚ × ResolutionInfo, ∃ p, l.foldl pickStep (some b) = some p ∧
      (p = b ∨ p ∈ l) ∧ p.1 ≤ b.1 ∧ ∀ q ∈ l, p.1 ≤ q.1 := by
  induction l with
  | nil => exact fun b => ⟨b, rfl, Or.inl rfl, le_refl _, by simp⟩
  | cons q t ih =>
      intro b
      by_cases h : q.1 < b.1
      · obtain ⟨p, hfold, hmem, hle, hall⟩ := ih q
        refine ⟨p, ?_, ?_, le_trans hle (le_of_lt h), ?_⟩
        · simpa [pickStep, h] using hfold
        · rcases hmem with rfl | hm
          · exact Or.inr (List.mem_cons_self _ _)
          · exact Or.inr (List.mem_cons_of_mem _ hm)
        · intro r hr
          rcases List.mem_cons.mp hr with rfl | hm
          · exact hle
          · exact hall r hm
      · obtain ⟨p, hfold, hmem, hle, hall⟩ := ih b
        refine ⟨p, ?_, ?_, hle, ?_⟩
        · simpa [pickStep, h] using hfold
        · rcases hmem with rfl | hm
          · exact Or.inl rfl
          · exact Or.inr (List.mem_cons_of_mem _ hm)
        · intro r hr
          rcases List.mem_cons.mp hr with rfl | hm
          · exact le_trans hle (not_lt.mp h)
          · exact hall r hm

/-- A start that is already no larger than every pair of the list
survives the whole running-minimum loop. -/
theorem pickMin_stays (l : List (ℚ × ResolutionInfo)) :
    ∀ b : ℚ × ResolutionInfo, (∀ q ∈ l, b.1 ≤ q.1) →
      l.foldl pickStep (some b) = some b := by
  induction l with
  | nil => exact fun b _ => rfl
  | cons q t ih =>
      intro b hall
      have hq : ¬q.1 < b.1 := not_lt.mpr (hall q (List.mem_cons_self _ _))
      have : pickStep (some b) q = some b := by simp [pickStep, hq]
      rw [List.foldl_cons, this]
      exact ih b (fun r hr => hall r (List.mem_cons_of_mem _ hr))

/-- On a nonempty list the running minimum returns some member pair that
is minimal. -/
theorem pickMin_spec (pairs : List (ℚ × ResolutionInfo)) (hne : pairs ≠ []) :
    ∃ p, pickMin pairs = some p ∧ p ∈ pairs ∧ ∀ q ∈ pairs, p.1 ≤ q.1 := by
  match pairs, hne with
  | r :: rest, _ =>
      obtain ⟨p, hfold, hmem, hle, hall⟩ := pickMin_from_some rest r
      refine ⟨p, ?_, ?_, ?_⟩
      · simpa [pickMin, pickStep] using hfold
      · rcases hmem with rfl | hm
        · exact List.mem_cons_self _ _
        · exact List.mem_cons_of_mem _ hm
      · intro q hq
        rcases List.mem_cons.mp hq with rfl | hm
        · exact hle
        · exact hall q hm

/-- With a single candidate the comparison list is the table itself,
paired with the distances. -/
theorem resolution_diffs_single (c : ℚ) (table : List ResolutionInfo) :
    resolution_diffs [c] table =
      table.map (fun e => (qabs (c - e.pixel_size), e)) := by
  simp [resolution_diffs]

/-- Membership in the comparison list names a candidate and a table
entry. -/
theorem mem_resolution_diffs {p : ℚ × ResolutionInfo} {resolutions : List ℚ}
    {table : List ResolutionInfo} (h : p ∈ resolution_diffs resolutions table) :
    ∃ c ∈ resolutions, ∃ e ∈ table, p = (qabs (c - e.pixel_size), e) := by
  simp only [resolution_diffs, List.mem_flatMap, List.mem_map] at h
  obtain ⟨c, hc, e, he, hp⟩ := h
  exact ⟨c, hc, e, he, hp.symm⟩

/-- C6 (theorem): when every candidate resolution is coarser than the
coarsest (first) table entry, `find_closest_resolution` returns that
coarsest entry — in particular it never extrapolates outside the
table. -/
theorem find_closest_resolution_clamps_to_coarsest
    (resolutions : List ℚ) (hd : ResolutionInfo) (tl : List ResolutionInfo)
    (hfiner : ∀ e ∈ tl, e.pixel_size < hd.pixel_size)
    (hne : resolutions ≠ [])
    (hcoarse : ∀ c ∈ resolutions, hd.pixel_size < c) :
    find_closest_resolution resolutions (hd :: tl) = some hd := by
  have hpairs : resolution_diffs resolutions (hd :: tl) ≠ [] := by
    match resolutions, hne with
    | c :: rest, _ => simp [resolution_diffs]
  obtain ⟨p, hpick, hmem, hall⟩ :=
    pickMin_spec (resolution_diffs resolutions (hd :: tl)) hpairs
  obtain ⟨c, hc, e, he, hp⟩ := mem_resolution_diffs hmem
  have hchd : hd.pixel_size < c := hcoarse c hc
  have heps : e.pixel_size ≤ hd.pixel_size := by
    rcases List.mem_cons.mp he with rfl | hm
    · exact le_refl _
    · exact le_of_lt (hfiner e hm)
  have hce : qabs (c - e.pixel_size) = c - e.pixel_size :=
    qabs_of_nonneg (by linarith)
  have hchd' : qabs (c - hd.pixel_size) = c - hd.pixel_size :=
    qabs_of_nonneg (by linarith)
  have hhd_mem : (qabs (c - hd.pixel_size), hd) ∈
      resolution_diffs resolutions (hd :: tl) := by
    simp only [resolution_diffs, List.mem_flatMap, List.mem_map]
    exact ⟨c, hc, hd, List.mem_cons_self _ _, rfl⟩
  have hmin := hall _ hhd_mem
  rw [hp] at hmin
  simp only [hce, hchd'] at hmin
  have : hd.pixel_size ≤ e.pixel_size := by linarith
  have heq : e = hd := by
    rcases List.mem_cons.mp he with rfl | hm
    · rfl
    · exact absurd (hfiner e hm) (not_lt.mpr this)
  rw [find_closest_resolution, hpick, hp, heq]
  rfl

/-- Witness for C6 at the unit test's inputs: 25-kilometer candidates
against the north-polar table clamp to its coarsest (2048 m) entry. -/
theorem find_closest_resolution_clamps_to_coarsest_witness :
    find_closest_resolution [25000, 25000] epsg_3413_resolutions =
      some ⟨2048, 4096⟩ :=
  find_closest_resolution_clamps_to_coarsest [25000, 25000] ⟨2048, 4096⟩
    [⟨1024, 8192⟩, ⟨512, 16384⟩, ⟨256, 32768⟩, ⟨128, 65536⟩,
     ⟨64, 131072⟩, ⟨32, 262144⟩, ⟨16, 524288⟩]
    (by decide) (by decide) (by decide)

/-- C1 (amended theorem): a candidate lying exactly halfway between two
adjacent entries of a table ordered coarsest to finest resolves to the
earlier — coarser, larger-pixel-size — of the two entries. -/
theorem find_closest_resolution_halfway_prefers_coarser
    (pre post : List ResolutionInfo) (e e' : ResolutionInfo)
    (hpre : ∀ a ∈ pre, e.pixel_size < a.pixel_size)
    (hee : e'.pixel_size < e.pixel_size)
    (hpost : ∀ b ∈ post, b.pixel_size < e'.pixel_size) :
    find_closest_resolution [(e.pixel_size + e'.pixel_size) / 2]
      (pre ++ e :: e' :: post) = some e := by
  set c : ℚ := (e.pixel_size + e'.pixel_size) / 2 with hc
  set d : ℚ := (e.pixel_size - e'.pixel_size) / 2 with hd
  have hdpos : 0 < d := by rw [hd]; linarith
  have hfe : qabs (c - e.pixel_size) = d := by
    rw [qabs_of_neg (by rw [hc]; linarith)]
    rw [hc, hd]; ring
  have hfe' : qabs (c - e'.pixel_size) = d := by
    rw [qabs_of_nonneg (by rw [hc]; linarith)]
    rw [hc, hd]; ring
  have hsplit : resolution_diffs [c] (pre ++ e :: e' :: post) =
      (pre.map (fun a => (qabs (c - a.pixel_size), a))) ++
        (d, e) :: (d, e') :: (post.map (fun b => (qabs (c - b.pixel_size), b))) := by
    rw [resolution_diffs_single]
    simp [hfe, hfe']
  have hrest : ∀ q ∈ (d, e') ::
      (post.map (fun b => (qabs (c - b.pixel_size), b))), d ≤ q.1 := by
    intro q hq
    rcases List.mem_cons.mp hq with rfl | hm
    · exact le_refl d
    · obtain ⟨b, hb, hqb⟩ := List.mem_map.mp hm
      rw [← hqb]
      have : qabs (c - b.pixel_size) = c - b.pixel_size := by
        refine qabs_of_nonneg ?_
        have := hpost b hb
        rw [hc]; linarith
      rw [this]
      have := hpost b hb
      rw [hc, hd] at *
      linarith
  have hmain : pickMin (resolution_diffs [c] (pre ++ e :: e' :: post)) =
      some (d, e) := by
    rw [hsplit, pickMin, List.foldl_append]
    rcases hpre' : pre.map (fun a => (qabs (c - a.pixel_size), a)) with _ | ⟨r, rest⟩
    · rw [hpre', List.foldl_nil, List.foldl_cons]
      exact pickMin_stays _ (d, e) hrest
    · have hne : pre.map (fun a => (qabs (c - a.pixel_size), a)) ≠ [] := by
        rw [hpre']; exact List.cons_ne_nil r rest
      obtain ⟨p₀, hfold, hmem, hall⟩ :=
        pickMin_spec (pre.map (fun a => (qabs (c - a.pixel_size), a))) hne
      rw [pickMin] at hfold
      rw [hfold]
      obtain ⟨a, ha, hpa⟩ := List.mem_map.mp hmem
      have hp₀ : d < p₀.1 := by
        rw [← hpa]
        have hae : e.pixel_size < a.pixel_size := hpre a ha
        have : qabs (c - a.pixel_size) = a.pixel_size - c := by
          rw [qabs_of_neg (by rw [hc]; linarith)]; ring
        rw [this, hc, hd]
        linarith
      rw [List.foldl_cons]
      have : pickStep (some p₀) (d, e) = some (d, e) := by
        simp [pickStep, hp₀]
      rw [this]
      exact pickMin_stays _ (d, e) hrest
  rw [find_closest_resolution, hmain]
  rfl

/-- Witness for C1's amended theorem at the unit test's input: the
candidate 0.01318359375 degrees lies exactly halfway between the 2 km
and 1 km entries of the global table and resolves to the 2 km entry. -/
theorem find_closest_resolution_halfway_prefers_coarser_witness :
    find_closest_resolution [(0.017578125 + 0.0087890625) / 2]
      ([] ++ (⟨0.017578125, 20480⟩ : ResolutionInfo) :: (⟨0.0087890625, 40960⟩ : ResolutionInfo) ::
        [⟨0.00439453125, 81920⟩, ⟨0.002197265625, 163840⟩,
         ⟨0.0010986328125, 327680⟩, ⟨0.00054931640625, 655360⟩,
         ⟨0.000274658203125, 1310720⟩, ⟨0.0001373291015625, 2621440⟩]) =
      some ⟨0.017578125, 20480⟩ :=
  find_closest_resolution_halfway_prefers_coarser [] _ _ _
    (by intro a ha; simp at ha)
    (by norm_num)
    (by
      intro b hb
      fin_cases hb <;> norm_num)

/-- Counterexample to C1 as stated: the candidate 0.01318359375 degrees
lies exactly halfway between the adjacent 2 km (0.017578125) and 1 km
(0.0087890625) entries of the global table, yet `find_closest_resolution`
returns the 2 km entry — the coarser of the two, not the finer. -/
theorem find_closest_resolution_halfway_not_finer :
    (0.01318359375 : ℚ) = (0.017578125 + 0.0087890625) / 2 ∧
    (0.0087890625 : ℚ) < 0.017578125 ∧
    find_closest_resolution [0.01318359375] epsg_4326_resolutions =
      some ⟨0.017578125, 20480⟩ := by
  refine ⟨by norm_num, by norm_num, ?_⟩
  norm_num [find_closest_resolution, resolution_diffs, pickMin, pickStep,
    epsg_4326_resolutions, qabs]

/-- Index bound of the boundary offsets: index `i` is generated exactly
when the offset `i * step` lies strictly below `total`. -/
theorem lt_boundary_count (step total : ℕ) (hs : 0 < step) (i : ℕ) :
    i < (⌈(total : ℚ) / (step : ℚ)⌉).toNat ↔ i * step < total := by
  rw [Int.lt_toNat, Int.lt_ceil, lt_div_iff₀ (by exact_mod_cast hs)]
  push_cast
  exact_mod_cast Iff.rfl

/-- The offset list of `compute_tile_boundaries` reads off as
`j * step` at every index below the offset count. -/
theorem compute_tile_boundaries_getD (step total : ℕ) (j : ℕ)
    (hj : j < (⌈(total : ℚ) / (step : ℚ)⌉).toNat) :
    (compute_tile_boundaries step (total : ℚ)).getD j 0 = (j : ℚ) * (step : ℚ) := by
  rw [compute_tile_boundaries, List.getD_eq_getElem?_getD,
    List.getElem?_append_left (by simpa using hj),
    List.getElem?_map, List.getElem?_range hj, Option.map_some', Option.getD_some]

/-- The boundary list has one entry per generated offset plus the
trailing boundary. -/
theorem compute_tile_boundaries_length (step : ℕ) (total : ℚ) :
    (compute_tile_boundaries step total).length =
      (⌈total / (step : ℚ)⌉).toNat + 1 := by
  simp [compute_tile_boundaries]

/-- C2 (amended theorem): for positive `step` and `total`,
`compute_tile_boundaries step total` starts at 0, ends with the
sentinel `total`, its non-sentinel part consists of exactly the
multiples of `step` strictly below `total` (so when `total` is a
multiple of `step` the sentinel is not duplicated), every consecutive
difference except possibly the last equals `step`, and
`compute_tile_boundaries 10 43 = [0, 10, 20, 30, 40, 43]`. -/
theorem compute_tile_boundaries_spec (step total : ℕ) (hs : 0 < step)
    (ht : 0 < total) :
    (compute_tile_boundaries step (total : ℚ)).head? = some 0 ∧
    (compute_tile_boundaries step (total : ℚ)).getLast? = some (total : ℚ) ∧
    (∀ x ∈ (compute_tile_boundaries step (total : ℚ)).dropLast,
      ∃ k : ℕ, x = (k : ℚ) * (step : ℚ) ∧ k * step < total) ∧
    (∀ k : ℕ, k * step < total →
      ((k : ℚ) * (step : ℚ)) ∈ (compute_tile_boundaries step (total : ℚ)).dropLast) ∧
    (∀ i : ℕ, i + 2 < (compute_tile_boundaries step (total : ℚ)).length →
      (compute_tile_boundaries step (total : ℚ)).getD (i + 1) 0 -
        (compute_tile_boundaries step (total : ℚ)).getD i 0 = (step : ℚ)) ∧
    compute_tile_boundaries 10 (43 : ℚ) = [0, 10, 20, 30, 40, 43] := by
  have hm : 0 < (⌈((total : ℕ) : ℚ) / (step : ℚ)⌉).toNat :=
    (lt_boundary_count step total hs 0).mpr (by simpa using ht)
  have hdrop : (compute_tile_boundaries step (total : ℚ)).dropLast =
      (List.range (⌈((total : ℕ) : ℚ) / (step : ℚ)⌉).toNat).map
        (fun i : ℕ => ((i : ℚ) * (step : ℚ))) := by
    rw [compute_tile_boundaries, List.dropLast_concat]
  refine ⟨?_, ?_, ?_, ?_, ?_, ?_⟩
  · have h0 : (compute_tile_boundaries step (total : ℚ)).getD 0 0 = 0 := by
      rw [compute_tile_boundaries_getD step total 0 hm]
      simp
    rcases hl : compute_tile_boundaries step (total : ℚ) with _ | ⟨y, t⟩
    · have := compute_tile_boundaries_length step (total : ℚ)
      rw [hl] at this
      simp at this
    · rw [hl] at h0
      simp only [List.getD_cons_zero] at h0
      simp [h0]
  · rw [compute_tile_boundaries, List.getLast?_concat]
  · intro x hx
    rw [hdrop] at hx
    obtain ⟨i, hi, hxi⟩ := List.mem_map.mp hx
    exact ⟨i, hxi.symm, (lt_boundary_count step total hs i).mp (List.mem_range.mp hi)⟩
  · intro k hk
    rw [hdrop]
    exact List.mem_map.mpr
      ⟨k, List.mem_range.mpr ((lt_boundary_count step total hs k).mpr hk), rfl⟩
  · intro i hi
    rw [compute_tile_boundaries_length] at hi
    have hi1 : i + 1 < (⌈((total : ℕ) : ℚ) / (step : ℚ)⌉).toNat := by omega
    have hi0 : i < (⌈((total : ℕ) : ℚ) / (step : ℚ)⌉).toNat := by omega
    rw [compute_tile_boundaries_getD step total (i + 1) hi1,
      compute_tile_boundaries_getD step total i hi0]
    push_cast
    ring
  · have hceil : ⌈(43 : ℚ) / ((10 : ℕ) : ℚ)⌉ = 5 := by
      rw [Int.ceil_eq_iff]; norm_num
    have hr : List.range (⌈(43 : ℚ) / ((10 : ℕ) : ℚ)⌉).toNat = [0, 1, 2, 3, 4] := by
      rw [hceil]
      rfl
    rw [compute_tile_boundaries, hr]
    norm_num

/-- Witness for C2's amended theorem at the unit test's input 10/43. -/
theorem compute_tile_boundaries_spec_witness :
    (compute_tile_boundaries 10 ((43 : ℕ) : ℚ)).head? = some 0 ∧
    (compute_tile_boundaries 10 ((43 : ℕ) : ℚ)).getLast? = some ((43 : ℕ) : ℚ) :=
  ⟨(compute_tile_boundaries_spec 10 43 (by norm_num) (by norm_num)).1,
   (compute_tile_boundaries_spec 10 43 (by norm_num) (by norm_num)).2.1⟩

/-- Counterexample to C2 as stated: when `total` is an exact multiple of
`step` (10 and 40), the code returns `[0, 10, 20, 30, 40]` — the offsets
stop strictly below `total` and no duplicate sentinel is appended —
whereas the claim's reading (offsets up to and including `total`, plus
an unconditional sentinel) would give `[0, 10, 20, 30, 40, 40]`. -/
theorem compute_tile_boundaries_exact_multiple :
    compute_tile_boundaries 10 40 = [0, 10, 20, 30, 40] ∧
    claim_tile_boundaries 10 40 = [0, 10, 20, 30, 40, 40] ∧
    compute_tile_boundaries 10 40 ≠ claim_tile_boundaries 10 40 := by
  have hceil : ⌈(40 : ℚ) / ((10 : ℕ) : ℚ)⌉ = 4 := by
    rw [Int.ceil_eq_iff]; norm_num
  have hr : List.range (⌈(40 : ℚ) / ((10 : ℕ) : ℚ)⌉).toNat = [0, 1, 2, 3] := by
    rw [hceil]
    rfl
  have h1 : compute_tile_boundaries 10 40 = [0, 10, 20, 30, 40] := by
    rw [compute_tile_boundaries, hr]
    norm_num
  have h2 : claim_tile_boundaries 10 40 = [0, 10, 20, 30, 40, 40] := by
    rw [claim_tile_boundaries]
    norm_num [List.range_succ]
  refine ⟨h1, h2, ?_⟩
  rw [h1, h2]
  intro hcontra
  have := congrArg List.length hcontra
  simp at this

/-- `np_diff` produces one difference per adjacent pair. -/
theorem np_diff_length (l : List ℚ) : (np_diff l).length = l.length - 1 := by
  induction l with
  | nil => rfl
  | cons a t ih =>
      cases t with
      | nil => rfl
      | cons b t' =>
          rw [np_diff, List.length_cons, ih]
          simp

/-- Appending one element to a nonempty list appends its difference
from the previous last element. -/
theorem np_diff_append_last (l : List ℚ) (x : ℚ) (a : ℚ) :
    np_diff ((x :: l) ++ [a]) = np_diff (x :: l) ++ [a - (x :: l).getLastD 0] := by
  induction l generalizing x with
  | nil => simp [np_diff]
  | cons y t ih =>
      rw [List.cons_append, List.cons_append]
      rw [show np_diff (x :: y :: (t ++ [a])) = (y - x) :: np_diff (y :: (t ++ [a])) from rfl]
      rw [show (y :: (t ++ [a])) = ((y :: t) ++ [a]) from rfl, ih y]
      rfl

/-- On a nonempty origins list, `compute_tile_dimensions` is `np_diff`
of the origins followed by the `0` sentinel. -/
theorem compute_tile_dimensions_cons (x : ℚ) (t : List ℚ) :
    compute_tile_dimensions (x :: t) = np_diff (x :: t) ++ [0] := by
  rw [compute_tile_dimensions, np_diff_append_last]
  simp

/-- The differences read off from the list entries. -/
theorem np_diff_getD (l : List ℚ) :
    ∀ i : ℕ, i + 1 < l.length →
      (np_diff l).getD i 0 = l.getD (i + 1) 0 - l.getD i 0 := by
  induction l with
  | nil => intro i hi; simp at hi
  | cons a t ih =>
      intro i hi
      cases t with
      | nil => simp at hi
      | cons b t' =>
          cases i with
          | zero => rfl
          | succ j =>
              rw [np_diff]
              have hj : j + 1 < (b :: t').length := by
                simpa [Nat.succ_lt_succ_iff] using hi
              simpa using ih j hj

/-- The differences telescope to last minus first. -/
theorem np_diff_sum (l : List ℚ) : (np_diff l).sum = l.getLastD 0 - l.headD 0 := by
  induction l with
  | nil => simp [np_diff]
  | cons a t ih =>
      cases t with
      | nil => simp [np_diff]
      | cons b t' =>
          rw [np_diff, List.sum_cons, ih]
          simp


/-- C4: on a strictly increasing origins list of length n starting at 0,
`compute_tile_dimensions` returns n values whose entry i (for i < n-1)
is `origins[i+1] - origins[i]`, whose final entry is the 0 sentinel, and
whose values excluding that sentinel sum to the last origin. -/
theorem compute_tile_dimensions_spec (origins : List ℚ)
    (h0 : origins.head? = some 0) (hmono : origins.Chain' (· < ·)) :
    (compute_tile_dimensions origins).length = origins.length ∧
    (∀ i : ℕ, i + 1 < origins.length →
      (compute_tile_dimensions origins).getD i 0 =
        origins.getD (i + 1) 0 - origins.getD i 0) ∧
    (compute_tile_dimensions origins).getLast? = some 0 ∧
    (compute_tile_dimensions origins).dropLast.sum = origins.getLastD 0 := by
  match origins, h0 with
  | x :: t, h0 =>
      have hx : x = 0 := by simpa using h0
      rw [compute_tile_dimensions_cons]
      refine ⟨?_, ?_, ?_, ?_⟩
      · rw [List.length_append, np_diff_length]
        simp
      · intro i hi
        have hlt : i < (np_diff (x :: t)).length := by
          rw [np_diff_length]
          simpa using Nat.lt_pred_of_succ_lt hi
        rw [List.getD_append _ _ _ _ hlt]
        exact np_diff_getD (x :: t) i hi
      · rw [List.getLast?_concat]
      · rw [List.dropLast_concat, np_diff_sum]
        simp [hx]

/-- Witness for C4 at the unit test's origins list. -/
theorem compute_tile_dimensions_spec_witness :
    (compute_tile_dimensions [0, 10, 20, 30, 40, 43]).dropLast.sum = (43 : ℚ) ∧
    (compute_tile_dimensions [0, 10, 20, 30, 40, 43]).getLast? = some 0 := by
  have h := compute_tile_dimensions_spec [0, 10, 20, 30, 40, 43] rfl (by
    norm_num [List.chain'_cons])
  exact ⟨h.2.2.2, h.2.2.1⟩

/-- The 7200 by 3600 global geographic grid at 0.05-degree resolution of
the tiling unit test. -/
def tiled_global_grid : GridParams :=
  { width := 7200
    height := 3600
    crs := global_geographic_crs
    transform := ⟨0.05, 0, -180, 0, -0.05, 90⟩ }

/-- C3: partitioning the 7200x3600 global geographic grid with the cell
budget overridden to 2800 (the tiling branch `create_tiled_output_parameters`
takes when `needs_tiling` holds) yields exactly 6 tiles in row-major
order, 3 columns by 2 rows, with column widths 2800/2800/1600, row
heights 2800/800, row-0 origin-x values -180, -40, 100, row-1 origin-y
-50, every tile sharing the parent CRS and 0.05-degree resolution, and
the parallel locators (0,0), (0,1), (0,2), (1,0), (1,1), (1,2). -/
theorem tile_grid_global_3x2 :
    tile_grid 2800 tiled_global_grid =
      ([{ width := 2800, height := 2800, crs := global_geographic_crs
          transform := ⟨0.05, 0, -180, 0, -0.05, 90⟩ },
        { width := 2800, height := 2800, crs := global_geographic_crs
          transform := ⟨0.05, 0, -40, 0, -0.05, 90⟩ },
        { width := 1600, height := 2800, crs := global_geographic_crs
          transform := ⟨0.05, 0, 100, 0, -0.05, 90⟩ },
        { width := 2800, height := 800, crs := global_geographic_crs
          transform := ⟨0.05, 0, -180, 0, -0.05, -50⟩ },
        { width := 2800, height := 800, crs := global_geographic_crs
          transform := ⟨0.05, 0, -40, 0, -0.05, -50⟩ },
        { width := 1600, height := 800, crs := global_geographic_crs
          transform := ⟨0.05, 0, 100, 0, -0.05, -50⟩ }],
       [⟨0, 0⟩, ⟨0, 1⟩, ⟨0, 2⟩, ⟨1, 0⟩, ⟨1, 1⟩, ⟨1, 2⟩]) := by
  have hxb : compute_tile_boundaries 2800 (7200 : ℚ) = [0, 2800, 5600, 7200] := by
    have hceil : ⌈(7200 : ℚ) / ((2800 : ℕ) : ℚ)⌉ = 3 := by
      rw [Int.ceil_eq_iff]; norm_num
    have hr : List.range (⌈(7200 : ℚ) / ((2800 : ℕ) : ℚ)⌉).toNat = [0, 1, 2] := by
      rw [hceil]; rfl
    rw [compute_tile_boundaries, hr]
    norm_num
  have hyb : compute_tile_boundaries 2800 (3600 : ℚ) = [0, 2800, 3600] := by
    have hceil : ⌈(3600 : ℚ) / ((2800 : ℕ) : ℚ)⌉ = 2 := by
      rw [Int.ceil_eq_iff]; norm_num
    have hr : List.range (⌈(3600 : ℚ) / ((2800 : ℕ) : ℚ)⌉).toNat = [0, 1] := by
      rw [hceil]; rfl
    rw [compute_tile_boundaries, hr]
    norm_num
  have hxd : compute_tile_dimensions [0, 2800, 5600, 7200] = [2800, 2800, 1600, 0] := by
    norm_num [compute_tile_dimensions, np_diff]
  have hyd : compute_tile_dimensions [0, 2800, 3600] = [2800, 800, 0] := by
    norm_num [compute_tile_dimensions, np_diff]
  simp only [tile_grid, tiled_global_grid]
  rw [hxb, hyb, hxd, hyd]
  norm_num [enumerate, global_geographic_crs]

/-- Erasing the dimensions leaves no height. -/
theorem eraseDimensions_heightOpt (m : Message) :
    (eraseDimensions m).heightOpt = Option.none := by
  cases hf : m.format <;> simp [eraseDimensions, Message.heightOpt, hf]

/-- Erasing the dimensions leaves no width. -/
theorem eraseDimensions_widthOpt (m : Message) :
    (eraseDimensions m).widthOpt = Option.none := by
  cases hf : m.format <;> simp [eraseDimensions, Message.widthOpt, hf]

/-- Erasing the dimensions does not touch the x scale size. -/
theorem eraseDimensions_scaleSizeX (m : Message) :
    (eraseDimensions m).scaleSizeX = m.scaleSizeX := by
  cases hf : m.format <;> simp [eraseDimensions, Message.scaleSizeX, hf]

/-- Erasing the dimensions does not touch the y scale size. -/
theorem eraseDimensions_scaleSizeY (m : Message) :
    (eraseDimensions m).scaleSizeY = m.scaleSizeY := by
  cases hf : m.format <;> simp [eraseDimensions, Message.scaleSizeY, hf]

/-- C7: a request carrying exactly one of height and width is treated as
carrying neither — `choose_target_dimensions` resolves it identically to
the same request with both dimensions erased, and (when no scale sizes
are present either) falls through to the best-guess path. -/
theorem choose_target_dimensions_single_dimension (m : Message) (d : Dataset)
    (se : ScaleExtent) (crs : CRS)
    (hone : m.heightOpt.isSome ≠ m.widthOpt.isSome) :
    choose_target_dimensions m d se crs =
      choose_target_dimensions (eraseDimensions m) d se crs ∧
    (has_scale_sizes m = false →
      choose_target_dimensions m d se crs =
        best_guess_target_dimensions d se crs) := by
  have hdim : has_dimensions m = false := by
    rw [has_dimensions]
    cases hh : m.heightOpt.isSome <;> cases hw : m.widthOpt.isSome <;> simp_all
  have hdim' : has_dimensions (eraseDimensions m) = false := by
    rw [has_dimensions, eraseDimensions_heightOpt]
    simp
  have hss : has_scale_sizes (eraseDimensions m) = has_scale_sizes m := by
    rw [has_scale_sizes, has_scale_sizes, eraseDimensions_scaleSizeX,
      eraseDimensions_scaleSizeY]
  constructor
  · rw [choose_target_dimensions, choose_target_dimensions, hdim, hdim', hss,
      eraseDimensions_scaleSizeX, eraseDimensions_scaleSizeY]
    simp
  · intro hssm
    rw [choose_target_dimensions, hdim, hssm]
    simp

/-- The north-polar preferred CRS (EPSG:3413). -/
def north_polar_crs : CRS :=
  { code := "EPSG:3413"
    is_projected := true
    area_of_use := Option.none
    projected_bounds := Option.none }

/-- A request supplying only a height of 30, as in the unit test. -/
def one_dim_message : Message :=
  { format := some
      { height := some 30
        width := Option.none
        scaleSize := Option.none
        scaleExtent := Option.none
        crs := Option.none } }

/-- The 720x720 EASE-2 25 km input raster of the unit tests. -/
def sample_dataset : Dataset :=
  { height := 720
    width := 720
    crs := north_polar_crs
    transform := ⟨25000, 0, -9000000, 0, -25000, 9000000⟩ }

/-- The 18-million-meter square scale extent of the unit tests. -/
def sample_extent : ScaleExtent := ⟨-9000000, -9000000, 9000000, 9000000⟩

/-- Witness for C7 at a height-only request: resolution falls through to
the best-guess path. -/
theorem choose_target_dimensions_single_dimension_witness :
    choose_target_dimensions one_dim_message sample_dataset sample_extent
        north_polar_crs =
      best_guess_target_dimensions sample_dataset sample_extent north_polar_crs :=
  (choose_target_dimensions_single_dimension one_dim_message sample_dataset
      sample_extent north_polar_crs (by decide)).2 (by decide)
